import Mathlib

/-
Shallow embedding of src/resctl-bench/src/study.rs (the study engine of
resctl-demo): report selectors, the mean and percentile accumulators, the
composite and matrix studies, and the bounded-iteration report driver with
its coverage policy.

f64 values are embedded as exact rationals (ℚ); the standard deviation,
being a square root, lives in ℝ.  External collaborators that are part of
the repository but not under src/ (rd_agent_intf::{Report, IoLatReport},
run::RunCtx) and external crates (quantiles::ckms::CKMS, statistical) are
modelled from the spec, as documented on each definition.
-/

/-- Modelled from the spec: the nested numeric map of rd_agent_intf::IoLatReport
(category → percentile-label → value), which is not under src/.  The spec
describes reports as "nested numeric fields addressable by a hierarchical key"
and requires selectors over them to be total, so the map is embedded as a
total function. -/
structure IoLatReport where
  map : String → String → ℚ

/-- Modelled from the spec: rd_agent_intf::Report (not under src/), an opaque
measurement snapshot; only its iolat field is read by study.rs. -/
structure Report where
  iolat : IoLatReport

/-- Modelled from the spec: the RunCtx collaborator (run.rs, not under src/):
an address-by-index report source, reportAt(i) may fail, plus the separately
tracked cumulative iolat report read by the matrix study through
access_agent_files. -/
structure RunCtx where
  reports : Nat → Except Unit Report
  iolat_cum : String → String → ℚ

/-- study.rs lines 22–32: sel_factory_iolat.  The returned closure yields the
(io_type, pct) entry when the (io_type, "100") entry is positive, and no value
otherwise. -/
def sel_factory_iolat (io_type pct : String) : Report → Option ℚ :=
  fun rep =>
    if 0 < rep.iolat.map io_type "100" then some (rep.iolat.map io_type pct)
    else none

/-- f64::MAX as an exact rational, the initial accumulator of the min scan in
StudyMean::result (study.rs line 88). -/
def f64MAX : ℚ := (2 ^ 53 - 1) * 2 ^ 971

/-- f64::MIN as an exact rational, the initial accumulator of the max scan in
StudyMean::result (study.rs line 89). -/
def f64MIN : ℚ := -f64MAX

namespace statistical

/-- Modelled from the spec: statistical::mean from the external statistical
crate, the arithmetic mean of the sample list. -/
def mean (l : List ℚ) : ℚ := l.sum / l.length

/-- Modelled from the spec: statistical::variance from the external
statistical crate: sample variance, denominator n − 1. -/
def variance (l : List ℚ) : ℚ :=
  (l.map fun x => (x - mean l) ^ 2).sum / ((l.length : ℚ) - 1)

/-- Modelled from the spec: statistical::standard_deviation from the external
statistical crate: square root of the sample variance. -/
noncomputable def standard_deviation (l : List ℚ) : ℝ :=
  Real.sqrt ((variance l : ℚ) : ℝ)

end statistical

/-- study.rs lines 37–54: the StudyMean accumulator, a selector plus the
accumulated sample list. -/
structure StudyMean where
  sel : Report → Option ℚ
  data : List ℚ

/-- study.rs lines 51–53: StudyMean::new. -/
def StudyMean.new (sel : Report → Option ℚ) : StudyMean := ⟨sel, []⟩

/-- The state transition of StudyMean::study (study.rs lines 61–66): push the
selected value, if any. -/
def StudyMean.step (s : StudyMean) (rep : Report) : StudyMean :=
  match s.sel rep with
  | some v => { s with data := s.data ++ [v] }
  | none => s

/-- study.rs lines 61–66: StudyMean::study, which always returns Ok. -/
def StudyMean.study (s : StudyMean) (rep : Report) : Except String StudyMean :=
  Except.ok (s.step rep)

/-- study.rs lines 82–96: StudyMean::result = (mean, stdev, min, max); stdev is
hardcoded to 0 for a single sample, min and max are linear scans seeded with
f64::MAX and f64::MIN. -/
noncomputable def StudyMean.result (s : StudyMean) : ℚ × ℝ × ℚ × ℚ :=
  (statistical.mean s.data,
   if s.data.length = 1 then (0 : ℝ) else statistical.standard_deviation s.data,
   s.data.foldl min f64MAX,
   s.data.foldl max f64MIN)

theorem foldl_min_le_init (l : List ℚ) (init : ℚ) : l.foldl min init ≤ init := by
  induction l generalizing init with
  | nil => exact le_refl _
  | cons a t ih => exact le_trans (ih (min init a)) (min_le_left _ _)

theorem foldl_min_le_mem {x : ℚ} (l : List ℚ) (init : ℚ) (hx : x ∈ l) :
    l.foldl min init ≤ x := by
  induction l generalizing init with
  | nil => cases hx
  | cons a t ih =>
    rcases List.mem_cons.mp hx with h | h
    · subst h
      exact le_trans (foldl_min_le_init t (min init x)) (min_le_right _ _)
    · exact ih (min init a) h

theorem init_le_foldl_max (l : List ℚ) (init : ℚ) : init ≤ l.foldl max init := by
  induction l generalizing init with
  | nil => exact le_refl _
  | cons a t ih => exact le_trans (le_max_left _ _) (ih (max init a))

theorem mem_le_foldl_max {x : ℚ} (l : List ℚ) (init : ℚ) (hx : x ∈ l) :
    x ≤ l.foldl max init := by
  induction l generalizing init with
  | nil => cases hx
  | cons a t ih =>
    rcases List.mem_cons.mp hx with h | h
    · subst h
      exact le_trans (le_max_right _ _) (init_le_foldl_max t (max init x))
    · exact ih (max init a) h

theorem mul_card_le_sum (l : List ℚ) (m : ℚ) (h : ∀ x ∈ l, m ≤ x) :
    (l.length : ℚ) * m ≤ l.sum := by
  induction l with
  | nil => simp
  | cons a t ih =>
    have ha := h a (List.mem_cons_self a t)
    have ht := ih (fun x hx => h x (List.mem_cons_of_mem a hx))
    simp only [List.length_cons, List.sum_cons]
    have hexp : ((t.length : ℚ) + 1) * m = (t.length : ℚ) * m + m := by ring
    push_cast
    rw [hexp]
    linarith

theorem sum_le_mul_card (l : List ℚ) (m : ℚ) (h : ∀ x ∈ l, x ≤ m) :
    l.sum ≤ (l.length : ℚ) * m := by
  induction l with
  | nil => simp
  | cons a t ih =>
    have ha := h a (List.mem_cons_self a t)
    have ht := ih (fun x hx => h x (List.mem_cons_of_mem a hx))
    simp only [List.length_cons, List.sum_cons]
    have hexp : ((t.length : ℚ) + 1) * m = (t.length : ℚ) * m + m := by ring
    push_cast
    rw [hexp]
    linarith

theorem variance_pos {l : List ℚ} (h2 : 2 ≤ l.length) {a b : ℚ}
    (ha : a ∈ l) (hb : b ∈ l) (hab : a ≠ b) : 0 < statistical.variance l := by
  unfold statistical.variance
  apply div_pos
  · have hne : a - statistical.mean l ≠ 0 ∨ b - statistical.mean l ≠ 0 := by
      by_contra hc
      push_neg at hc
      exact hab (by linarith [sub_eq_zero.mp hc.1, sub_eq_zero.mp hc.2])
    have key : ∃ c ∈ l, c - statistical.mean l ≠ 0 := by
      rcases hne with h | h
      · exact ⟨a, ha, h⟩
      · exact ⟨b, hb, h⟩
    obtain ⟨c, hc, hcne⟩ := key
    have hmem : (c - statistical.mean l) ^ 2 ∈ l.map fun x => (x - statistical.mean l) ^ 2 :=
      List.mem_map_of_mem _ hc
    have hpos : 0 < (c - statistical.mean l) ^ 2 := pow_two_pos_of_ne_zero hcne
    have hnonneg : ∀ y ∈ l.map fun x => (x - statistical.mean l) ^ 2, 0 ≤ y := by
      intro y hy
      obtain ⟨x, _, rfl⟩ := List.mem_map.mp hy
      exact sq_nonneg _
    exact lt_of_lt_of_le hpos (List.single_le_sum hnonneg _ hmem)
  · have : (2 : ℚ) ≤ (l.length : ℚ) := by exact_mod_cast h2
    linarith

/-- C2: StudyMean::result returns stdev = 0 for exactly one accumulated
sample; for two or more samples it returns the standard deviation of the full
sample set, which is strictly positive whenever at least two of the samples
are distinct. -/
theorem c2_thm (s : StudyMean) :
    (s.data.length = 1 → (s.result).2.1 = 0) ∧
    (2 ≤ s.data.length →
      (s.result).2.1 = statistical.standard_deviation s.data ∧
      ((∃ a ∈ s.data, ∃ b ∈ s.data, a ≠ b) → 0 < (s.result).2.1)) := by
  constructor
  · intro h1
    simp only [StudyMean.result]
    rw [if_pos h1]
  · intro h2
    have hne : s.data.length ≠ 1 := by omega
    simp only [StudyMean.result]
    rw [if_neg hne]
    refine ⟨rfl, ?_⟩
    rintro ⟨a, ha, b, hb, hab⟩
    unfold statistical.standard_deviation
    rw [Real.sqrt_pos]
    exact_mod_cast variance_pos h2 ha hb hab

def demoSelNone : Report → Option ℚ := fun _ => none

def demoMean2 : StudyMean := ⟨demoSelNone, [1, 2]⟩

def demoMean1 : StudyMean := ⟨demoSelNone, [3]⟩

/-- Witness for C2 at the concrete accumulator holding the two distinct
samples 1 and 2. -/
theorem c2_witness : 2 ≤ demoMean2.data.length ∧ 0 < (demoMean2.result).2.1 :=
  ⟨by decide, ((c2_thm demoMean2).2 (by decide)).2 ⟨1, by decide, 2, by decide, by decide⟩⟩

/-- C5: for every non-empty accumulated sample set, StudyMean::result
satisfies min ≤ mean and mean ≤ max. -/
theorem c5_thm (s : StudyMean) (h : s.data ≠ []) :
    (s.result).2.2.1 ≤ (s.result).1 ∧ (s.result).1 ≤ (s.result).2.2.2 := by
  have hn : 0 < (s.data.length : ℚ) := by
    have := List.length_pos.mpr h
    exact_mod_cast this
  simp only [StudyMean.result]
  constructor
  · show s.data.foldl min f64MAX ≤ statistical.mean s.data
    unfold statistical.mean
    rw [le_div_iff₀ hn]
    calc s.data.foldl min f64MAX * (s.data.length : ℚ)
        = (s.data.length : ℚ) * s.data.foldl min f64MAX := by ring
      _ ≤ s.data.sum := mul_card_le_sum _ _ (fun x hx => foldl_min_le_mem _ _ hx)
  · show statistical.mean s.data ≤ s.data.foldl max f64MIN
    unfold statistical.mean
    rw [div_le_iff₀ hn]
    calc s.data.sum
        ≤ (s.data.length : ℚ) * s.data.foldl max f64MIN :=
          sum_le_mul_card _ _ (fun x hx => mem_le_foldl_max _ _ hx)
      _ = s.data.foldl max f64MIN * (s.data.length : ℚ) := by ring

/-- Witness for C5 at the concrete accumulator holding the single sample 3. -/
theorem c5_witness :
    demoMean1.data ≠ [] ∧
    ((demoMean1.result).2.2.1 ≤ (demoMean1.result).1 ∧
      (demoMean1.result).1 ≤ (demoMean1.result).2.2.2) :=
  ⟨by decide, c5_thm demoMean1 (by decide)⟩

/-- C3: the selector built by sel_factory_iolat is a total function on the
embedded report type: it yields the (io_type, pct) entry exactly when the
(io_type, "100") entry is positive, and no value otherwise. -/
theorem c3_thm (io_type pct : String) (rep : Report) :
    (0 < rep.iolat.map io_type "100" ↔
      sel_factory_iolat io_type pct rep = some (rep.iolat.map io_type pct)) ∧
    (¬ 0 < rep.iolat.map io_type "100" ↔
      sel_factory_iolat io_type pct rep = none) := by
  unfold sel_factory_iolat
  by_cases h : 0 < rep.iolat.map io_type "100" <;> simp [h]

/-- Modelled from the spec: quantiles::ckms::CKMS (external crate), the
ε-approximate order-statistics sketch.  Embedded as the exact sketch (the
spec's ε-approximate query at ε = 0): the sample multiset is kept sorted, as
the crate does, and a query returns the order statistic at the requested
rank; a query on an empty sketch has no answer. -/
structure CKMS where
  error : ℚ
  samples : List ℚ

def CKMS.new (error : ℚ) : CKMS := ⟨error, []⟩

def CKMS.insert (c : CKMS) (v : ℚ) : CKMS :=
  { c with samples := c.samples.orderedInsert (· ≤ ·) v }

def CKMS.query (c : CKMS) (q : ℚ) : Option (ℕ × ℚ) :=
  match c.samples with
  | [] => none
  | l => some (max 1 ⌈q * l.length⌉₊,
               l.getD (min (max 1 ⌈q * l.length⌉₊) l.length - 1) 0)

/-- The sketch obtained by inserting the given observations in order into a
fresh sketch. -/
def CKMS.ofList (error : ℚ) (vals : List ℚ) : CKMS :=
  vals.foldl CKMS.insert (CKMS.new error)

/-- study.rs line 117: CKMS_DFL_ERROR. -/
def CKMS_DFL_ERROR : ℚ := 1 / 1000

/-- study.rs lines 102–123: the StudyPcts accumulator, a selector plus the
quantile sketch. -/
structure StudyPcts where
  sel : Report → Option ℚ
  ckms : CKMS

/-- study.rs lines 116–122: StudyPcts::new with the default sketch error. -/
def StudyPcts.new (sel : Report → Option ℚ) (error : Option ℚ) : StudyPcts :=
  ⟨sel, CKMS.new (error.getD CKMS_DFL_ERROR)⟩

/-- The state transition of StudyPcts::study (study.rs lines 130–135): insert
the selected value, if any, into the sketch. -/
def StudyPcts.step (s : StudyPcts) (rep : Report) : StudyPcts :=
  match s.sel rep with
  | some v => { s with ckms := s.ckms.insert v }
  | none => s

/-- study.rs lines 130–135: StudyPcts::study, which always returns Ok. -/
def StudyPcts.study (s : StudyPcts) (rep : Report) : Except String StudyPcts :=
  Except.ok (s.step rep)

/-- Split a character list at every dot, mirroring how a decimal literal
"ip.fp" decomposes. -/
def splitDot : List Char → List (List Char)
  | [] => [[]]
  | c :: rest =>
    match splitDot rest with
    | [] => [[c]]
    | r :: rs => if c = '.' then [] :: r :: rs else (c :: r) :: rs

/-- Parse a non-empty all-digit character list as a natural number. -/
def parseDigits (cs : List Char) : Option ℕ :=
  if cs = [] then none
  else if cs.all (fun c => c.isDigit) then
    some (cs.foldl (fun n c => n * 10 + (c.toNat - 48)) 0)
  else none

/-- Modelled from the spec: str::parse::<f64> (Rust standard library) on the
plain decimal percentile labels this file uses ("00", "99.9", ...), exact over
ℚ; any other shape fails to parse. -/
def parsePct (s : String) : Option ℚ :=
  match splitDot s.data with
  | [ip] => (parseDigits ip).map fun n => (n : ℚ)
  | [ip, fp] =>
    (parseDigits ip).bind fun n =>
      (parseDigits fp).map fun f => (n : ℚ) + (f : ℚ) / ((10 ^ fp.length : ℕ) : ℚ)
  | _ => none

/-- Option-valued traversal; none models a panicking unwrap inside the
traversed function (study.rs lines 151–158 collect over two unwraps). -/
def mapMOpt (f : α → Option β) : List α → Option (List β)
  | [] => some []
  | a :: l =>
    match f a, mapMOpt f l with
    | some b, some bs => some (b :: bs)
    | _, _ => none

/-- One entry of StudyPcts::result (study.rs lines 153–155): parse the label,
query the sketch at that rank, keep the value component. -/
def StudyPcts.queryPct (sp : StudyPcts) (pct : String) : Option (String × ℚ) :=
  (parsePct pct).bind fun pctf =>
    (sp.ckms.query (pctf / 100)).map fun x => (pct, x.2)

/-- study.rs lines 151–158: StudyPcts::result; none models a panic of one of
the two unwraps. -/
def StudyPcts.result (sp : StudyPcts) (pcts : List String) :
    Option (List (String × ℚ)) :=
  mapMOpt (sp.queryPct) pcts

theorem CKMS.query_eq_of_ne_nil (c : CKMS) (hne : c.samples ≠ []) (q : ℚ) :
    c.query q = some (max 1 ⌈q * c.samples.length⌉₊,
      c.samples.getD (min (max 1 ⌈q * c.samples.length⌉₊) c.samples.length - 1) 0) := by
  unfold CKMS.query
  cases h : c.samples with
  | nil => exact absurd h hne
  | cons a t => simp only [h]

theorem CKMS.sorted_foldl_insert (vals : List ℚ) (c : CKMS)
    (h : c.samples.Sorted (· ≤ ·)) :
    ((vals.foldl CKMS.insert c).samples).Sorted (· ≤ ·) := by
  induction vals generalizing c with
  | nil => exact h
  | cons v t ih =>
    exact ih (c.insert v) (List.Sorted.orderedInsert v c.samples h)

theorem CKMS.length_foldl_insert (vals : List ℚ) (c : CKMS) :
    (vals.foldl CKMS.insert c).samples.length = c.samples.length + vals.length := by
  induction vals generalizing c with
  | nil => rfl
  | cons v t ih =>
    rw [List.foldl_cons, ih]
    simp [CKMS.insert, List.orderedInsert_length]
    omega

/-- C7: on a report where the selector yields no value, StudyMean::study and
StudyPcts::study return Ok and leave the accumulator unchanged; on a report
where it yields v, they return Ok after inserting exactly the single value v
(one sample appended, resp. one sketch insertion). -/
theorem c7_thm (sm : StudyMean) (sp : StudyPcts) (rep : Report) :
    (sm.sel rep = none → sm.study rep = Except.ok sm) ∧
    (∀ v, sm.sel rep = some v →
      sm.study rep = Except.ok { sel := sm.sel, data := sm.data ++ [v] }) ∧
    (sp.sel rep = none → sp.study rep = Except.ok sp) ∧
    (∀ v, sp.sel rep = some v →
      sp.study rep = Except.ok { sel := sp.sel, ckms := sp.ckms.insert v } ∧
      List.Perm (sp.ckms.insert v).samples (v :: sp.ckms.samples) ∧
      (sp.ckms.insert v).samples.length = sp.ckms.samples.length + 1) := by
  refine ⟨fun h => ?_, fun v h => ?_, fun h => ?_, fun v h => ⟨?_, ?_, ?_⟩⟩
  · simp [StudyMean.study, StudyMean.step, h]
  · simp [StudyMean.study, StudyMean.step, h]
  · simp [StudyPcts.study, StudyPcts.step, h]
  · simp [StudyPcts.study, StudyPcts.step, h]
  · exact List.perm_orderedInsert _ _ _
  · simp [CKMS.insert, List.orderedInsert_length]

def demoRep : Report := ⟨⟨fun _ _ => 1⟩⟩

def demoSelFive : Report → Option ℚ := fun _ => some 5

def demoSM5 : StudyMean := ⟨demoSelFive, [1]⟩

def demoSP5 : StudyPcts := ⟨demoSelFive, CKMS.new CKMS_DFL_ERROR⟩

/-- Witness for C7: at a concrete report where the selector yields 5, both
accumulators return Ok with exactly the value 5 inserted. -/
theorem c7_witness :
    demoSM5.study demoRep = Except.ok { sel := demoSM5.sel, data := demoSM5.data ++ [5] } ∧
    demoSP5.study demoRep = Except.ok { sel := demoSP5.sel, ckms := demoSP5.ckms.insert 5 } ∧
    (demoSP5.ckms.insert 5).samples.length = demoSP5.ckms.samples.length + 1 :=
  ⟨(c7_thm demoSM5 demoSP5 demoRep).2.1 5 rfl,
   ((c7_thm demoSM5 demoSP5 demoRep).2.2.2 5 rfl).1,
   ((c7_thm demoSM5 demoSP5 demoRep).2.2.2 5 rfl).2.2⟩

/-- C4: when the sketch has received at least one observation and every
requested label parses as a decimal in [0, 100], StudyPcts::result succeeds
(neither internal unwrap can fail) and returns exactly one entry per requested
label, keyed by that label. -/
theorem c4_thm (sp : StudyPcts) (pcts : List String)
    (hobs : sp.ckms.samples ≠ [])
    (hparse : ∀ p ∈ pcts, ∃ q, parsePct p = some q ∧ 0 ≤ q ∧ q ≤ 100) :
    ∃ l, sp.result pcts = some l ∧ l.map Prod.fst = pcts := by
  induction pcts with
  | nil => exact ⟨[], rfl, rfl⟩
  | cons p rest ih =>
    obtain ⟨q, hq, _, _⟩ := hparse p (List.mem_cons_self p rest)
    obtain ⟨l, hl, hmap⟩ := ih (fun x hx => hparse x (List.mem_cons_of_mem p hx))
    refine ⟨(p, (sp.ckms.samples.getD
      (min (max 1 ⌈q / 100 * sp.ckms.samples.length⌉₊) sp.ckms.samples.length - 1) 0)) :: l,
      ?_, by simp [hmap]⟩
    show mapMOpt (sp.queryPct) (p :: rest) = _
    unfold mapMOpt
    rw [show sp.queryPct p = some (p, sp.ckms.samples.getD
      (min (max 1 ⌈q / 100 * sp.ckms.samples.length⌉₊) sp.ckms.samples.length - 1) 0) by
        unfold StudyPcts.queryPct
        rw [hq, Option.some_bind, CKMS.query_eq_of_ne_nil sp.ckms hobs (q / 100)]
        rfl]
    rw [show mapMOpt (sp.queryPct) rest = some l from hl]

def demoSP1 : StudyPcts := ⟨demoSelFive, ⟨CKMS_DFL_ERROR, [1]⟩⟩

/-- Witness for C4 at a sketch holding one observation and the parseable
label "50". -/
theorem c4_witness :
    demoSP1.ckms.samples ≠ [] ∧
    ∃ l, demoSP1.result ["50"] = some l ∧ l.map Prod.fst = ["50"] :=
  ⟨by decide, c4_thm demoSP1 ["50"] (by decide)
    (by
      intro p hp
      have hp50 : p = "50" := by simpa using hp
      subst hp50
      exact ⟨50, by decide, by norm_num, by norm_num⟩)⟩

theorem getD_mono_of_sorted {l : List ℚ} (hs : l.Sorted (· ≤ ·)) {i j : ℕ}
    (hij : i ≤ j) (hj : j < l.length) : l.getD i 0 ≤ l.getD j 0 := by
  have hi : i < l.length := lt_of_le_of_lt hij hj
  rw [List.getD_eq_getElem l 0 hi, List.getD_eq_getElem l 0 hj]
  have h2 := @List.Sorted.rel_get_of_le ℚ (· ≤ ·) _ l hs ⟨i, hi⟩ ⟨j, hj⟩
    (Fin.mk_le_mk.mpr hij)
  simpa using h2

/-- C9: on a StudyPcts accumulator built by inserting at least one
observation, the values result returns for the labels "00", "50" and "100"
are non-decreasing in that order. -/
theorem c9_thm (sel : Report → Option ℚ) (e : ℚ) (vals : List ℚ) (hne : vals ≠ []) :
    ∃ a b c, (StudyPcts.mk sel (CKMS.ofList e vals)).result ["00", "50", "100"] =
      some [("00", a), ("50", b), ("100", c)] ∧ a ≤ b ∧ b ≤ c := by
  have hsort : (CKMS.ofList e vals).samples.Sorted (· ≤ ·) :=
    CKMS.sorted_foldl_insert vals (CKMS.new e) List.sorted_nil
  have hlen : (CKMS.ofList e vals).samples.length = vals.length := by
    have := CKMS.length_foldl_insert vals (CKMS.new e)
    simpa [CKMS.new] using this
  have hnpos : 0 < (CKMS.ofList e vals).samples.length := by
    rw [hlen]
    exact List.length_pos.mpr hne
  have hnnil : (CKMS.ofList e vals).samples ≠ [] := by
    intro h
    rw [h] at hnpos
    simp at hnpos
  set sp : StudyPcts := StudyPcts.mk sel (CKMS.ofList e vals) with hsp
  have hnnil' : sp.ckms.samples ≠ [] := hnnil
  have hnpos' : 0 < sp.ckms.samples.length := hnpos
  have hi0 : min (max 1 ⌈(0 : ℚ) / 100 * (sp.ckms.samples.length : ℚ)⌉₊)
      sp.ckms.samples.length - 1 = 0 := by
    rw [show (0 : ℚ) / 100 * (sp.ckms.samples.length : ℚ) = 0 from by ring, Nat.ceil_zero]
    omega
  have hiN : min (max 1 ⌈(100 : ℚ) / 100 * (sp.ckms.samples.length : ℚ)⌉₊)
      sp.ckms.samples.length - 1 = sp.ckms.samples.length - 1 := by
    rw [show (100 : ℚ) / 100 * (sp.ckms.samples.length : ℚ) = (sp.ckms.samples.length : ℚ)
      from by ring, Nat.ceil_natCast]
    omega
  have e00 : sp.queryPct "00" = some ("00", sp.ckms.samples.getD 0 0) := by
    unfold StudyPcts.queryPct
    rw [show parsePct "00" = some 0 from by decide, Option.some_bind,
      CKMS.query_eq_of_ne_nil sp.ckms hnnil' (0 / 100), hi0]
    rfl
  have e50 : sp.queryPct "50" = some ("50", sp.ckms.samples.getD
      (min (max 1 ⌈(50 : ℚ) / 100 * (sp.ckms.samples.length : ℚ)⌉₊)
        sp.ckms.samples.length - 1) 0) := by
    unfold StudyPcts.queryPct
    rw [show parsePct "50" = some 50 from by decide, Option.some_bind,
      CKMS.query_eq_of_ne_nil sp.ckms hnnil' (50 / 100)]
    rfl
  have e100 : sp.queryPct "100" = some ("100", sp.ckms.samples.getD
      (sp.ckms.samples.length - 1) 0) := by
    unfold StudyPcts.queryPct
    rw [show parsePct "100" = some 100 from by decide, Option.some_bind,
      CKMS.query_eq_of_ne_nil sp.ckms hnnil' (100 / 100), hiN]
    rfl
  refine ⟨sp.ckms.samples.getD 0 0,
    sp.ckms.samples.getD (min (max 1 ⌈(50 : ℚ) / 100 * (sp.ckms.samples.length : ℚ)⌉₊)
      sp.ckms.samples.length - 1) 0,
    sp.ckms.samples.getD (sp.ckms.samples.length - 1) 0, ?_, ?_, ?_⟩
  · simp [StudyPcts.result, mapMOpt, e00, e50, e100]
  · refine getD_mono_of_sorted hsort (Nat.zero_le _) ?_
    exact lt_of_le_of_lt
      (Nat.sub_le_sub_right (Nat.min_le_right _ sp.ckms.samples.length) 1)
      (Nat.sub_lt hnpos' one_pos)
  · refine getD_mono_of_sorted hsort ?_ ?_
    · exact Nat.sub_le_sub_right (Nat.min_le_right _ sp.ckms.samples.length) 1
    · exact Nat.sub_lt hnpos' one_pos

/-- Witness for C9 at the concrete observation sequence 3, 1, 2. -/
theorem c9_witness :
    ([3, 1, 2] : List ℚ) ≠ [] ∧
    ∃ a b c, (StudyPcts.mk demoSelFive (CKMS.ofList CKMS_DFL_ERROR [3, 1, 2])).result
      ["00", "50", "100"] = some [("00", a), ("50", b), ("100", c)] ∧ a ≤ b ∧ b ≤ c :=
  ⟨by decide, c9_thm demoSelFive CKMS_DFL_ERROR [3, 1, 2] (by decide)⟩

/-- study.rs lines 294–308: the header-label formatter fmt_pct inside
format_table; none models the panic of the parse unwrap on a non-numeric,
non-reserved label. -/
def fmt_pct (pct : String) : Option String :=
  if pct = "cum" ∨ pct = "mean" ∨ pct = "stdev" then some pct
  else (parsePct pct).map fun pctf =>
    if pctf = 0 then "min" else if pctf = 100 then "max" else "p" ++ pct

/-- study.rs lines 289–292: per-column widths of format_table,
(label length + 1) capped below at 5, independently per column. -/
def widths (time_pcts : List String) : List ℕ :=
  time_pcts.map fun pct => max (pct.length + 1) 5

/-- C8: format_table renders "cum", "mean" and "stdev" unchanged; a label
parsing to 0 renders as "min", to 100 as "max", any other numeric label L as
"pL" (so "99.9" renders as "p99.9"); and each column is max(5, label length
plus 1) wide, computed per column. -/
theorem c8_thm :
    (∀ pct, pct = "cum" ∨ pct = "mean" ∨ pct = "stdev" → fmt_pct pct = some pct) ∧
    (∀ pct q, ¬(pct = "cum" ∨ pct = "mean" ∨ pct = "stdev") → parsePct pct = some q →
      fmt_pct pct = some (if q = 0 then "min" else if q = 100 then "max" else "p" ++ pct)) ∧
    (∀ pcts, widths pcts = pcts.map fun pct => max 5 (pct.length + 1)) ∧
    fmt_pct "00" = some "min" ∧ fmt_pct "100" = some "max" ∧
    fmt_pct "99.9" = some "p99.9" := by
  refine ⟨fun pct h => ?_, fun pct q hr hq => ?_, fun pcts => ?_, by decide, by decide, ?_⟩
  · unfold fmt_pct
    rw [if_pos h]
  · unfold fmt_pct
    rw [if_neg hr, hq]
    rfl
  · unfold widths
    have hfun : (fun pct : String => max (pct.length + 1) 5) =
        fun pct : String => max 5 (pct.length + 1) := by
      funext p
      exact Nat.max_comm _ _
    rw [hfun]
  · unfold fmt_pct
    rw [if_neg (show ¬("99.9" = "cum" ∨ "99.9" = "mean" ∨ "99.9" = "stdev") from by decide)]
    have h1 : splitDot ("99.9".data) = [['9', '9'], ['9']] := by decide
    have h2 : parseDigits ['9', '9'] = some 99 := by decide
    have h3 : parseDigits ['9'] = some 9 := by decide
    have hp : parsePct "99.9" = some ((999 : ℚ) / 10) := by
      unfold parsePct
      rw [h1]
      simp [h2, h3]
      norm_num
    rw [hp]
    show some (if (999 : ℚ) / 10 = 0 then "min" else if (999 : ℚ) / 10 = 100 then "max"
      else "p" ++ "99.9") = some "p99.9"
    rw [if_neg (show ¬(999 : ℚ) / 10 = 0 from by norm_num),
      if_neg (show ¬(999 : ℚ) / 10 = 100 from by norm_num)]
    rfl

/-- Witness for C8: the numeric-label rule applied at the concrete label
"50". -/
theorem c8_witness : fmt_pct "50" = some "p50" := by
  have h := c8_thm.2.1 "50" 50 (by decide) (by decide)
  rw [h]
  decide

/-- The coverage-failure message of Studies::run_fallible (study.rs line 367),
naming both range bounds. -/
def coverageMsg (start fin : ℕ) : String :=
  "no report available between " ++ toString start ++ " and " ++ toString fin

/-- The error outcome of a run: a study error propagated by the question-mark
operator at study.rs line 359, or the coverage failure raised at line 367. -/
inductive RunError (ε : Type) where
  | study (e : ε)
  | coverage (msg : String)

/-- Whether a fetch from the report source succeeded. -/
def fetchOk {α β : Type} : Except α β → Bool
  | Except.ok _ => true
  | Except.error _ => false

/-- The loop of Studies::run_fallible (study.rs lines 355–364): iterate the
given report indices, feeding each fetched report to the registered studies
(abstracted as one state with a step function), counting fetch failures; the
first study error aborts immediately. -/
def runLoop {σ ε : Type} (run : RunCtx) (step : σ → Report → Except ε σ) :
    List ℕ → σ → ℕ → Except ε (σ × ℕ)
  | [], s, missed => Except.ok (s, missed)
  | i :: rest, s, missed =>
    match run.reports i with
    | Except.ok rep =>
      match step s rep with
      | Except.ok s2 => runLoop run step rest s2 missed
      | Except.error e => Except.error e
    | Except.error _ => runLoop run step rest s (missed + 1)

/-- study.rs lines 352–371: Studies::run_fallible.  The registered study list
is abstracted as one state σ stepped per report (the per-report loop over all
registered studies); after the loop, the coverage check start + nr_missed ≥
end fails the run. -/
def run_fallible {σ ε : Type} (run : RunCtx) (step : σ → Report → Except ε σ)
    (s : σ) (start fin : ℕ) : Except (RunError ε) (σ × ℕ) :=
  match runLoop run step (List.range' start (fin - start)) s 0 with
  | Except.error e => Except.error (RunError.study e)
  | Except.ok (s2, nr_missed) =>
    if start + nr_missed ≥ fin then
      Except.error (RunError.coverage (coverageMsg start fin))
    else Except.ok (s2, nr_missed)

/-- The number of fetch failures of the report source over [start, fin). -/
def missedCount (run : RunCtx) (start fin : ℕ) : ℕ :=
  ((List.range' start (fin - start)).filter fun i => !fetchOk (run.reports i)).length

theorem runLoop_all_fail {σ ε : Type} (run : RunCtx)
    (step : σ → Report → Except ε σ) (idxs : List ℕ) (s : σ) (m : ℕ)
    (h : ∀ i ∈ idxs, fetchOk (run.reports i) = false) :
    runLoop run step idxs s m = Except.ok (s, m + idxs.length) := by
  induction idxs generalizing m with
  | nil => rfl
  | cons i rest ih =>
    have hi := h i (List.mem_cons_self i rest)
    unfold runLoop
    cases hr : run.reports i with
    | ok rep => rw [hr] at hi; exact absurd hi (by simp [fetchOk])
    | error e =>
      rw [ih (m + 1) (fun j hj => h j (List.mem_cons_of_mem i hj))]
      have : m + 1 + rest.length = m + (i :: rest).length := by
        simp
        omega
      rw [this]

theorem runLoop_missed {σ ε : Type} (run : RunCtx)
    (step : σ → Report → Except ε σ) (idxs : List ℕ) (s : σ) (m : ℕ)
    (s2 : σ) (m2 : ℕ) (h : runLoop run step idxs s m = Except.ok (s2, m2)) :
    m2 = m + (idxs.filter fun i => !fetchOk (run.reports i)).length := by
  induction idxs generalizing s m with
  | nil =>
    unfold runLoop at h
    injection h with h
    injection h with _ h
    simp [h.symm]
  | cons i rest ih =>
    unfold runLoop at h
    cases hr : run.reports i with
    | ok rep =>
      rw [hr] at h
      dsimp only at h
      have hpi : (!fetchOk (run.reports i)) = false := by rw [hr]; rfl
      cases hs : step s rep with
      | ok s3 =>
        rw [hs] at h
        have h2 := ih s3 m h
        simpa [List.filter_cons, hpi] using h2
      | error e => rw [hs] at h; cases h
    | error e =>
      rw [hr] at h
      dsimp only at h
      have h2 := ih s (m + 1) h
      have hpi : (!fetchOk (run.reports i)) = true := by rw [hr]; rfl
      simp [List.filter_cons, hpi]
      omega

theorem runLoop_success {σ ε : Type} (run : RunCtx)
    (step : σ → Report → Except ε σ)
    (hstep : ∀ s2 rep, ∃ s3, step s2 rep = Except.ok s3)
    (idxs : List ℕ) (s : σ) (m : ℕ) :
    ∃ s2, runLoop run step idxs s m =
      Except.ok (s2, m + (idxs.filter fun i => !fetchOk (run.reports i)).length) := by
  induction idxs generalizing s m with
  | nil => exact ⟨s, rfl⟩
  | cons i rest ih =>
    unfold runLoop
    cases hr : run.reports i with
    | ok rep =>
      dsimp only
      have hpi : (!fetchOk (run.reports i)) = false := by rw [hr]; rfl
      obtain ⟨s3, hs3⟩ := hstep s rep
      rw [hs3]
      dsimp only
      obtain ⟨s2, hs2⟩ := ih s3 m
      refine ⟨s2, ?_⟩
      rw [hs2]
      simp [List.filter_cons, hpi]
    | error e =>
      dsimp only
      have hpi : (!fetchOk (run.reports i)) = true := by rw [hr]; rfl
      obtain ⟨s2, hs2⟩ := ih s (m + 1)
      refine ⟨s2, ?_⟩
      rw [hs2]
      simp [List.filter_cons, hpi]
      omega

theorem filter_length_eq_all {p : ℕ → Bool} (l : List ℕ)
    (h : (l.filter p).length = l.length) : ∀ i ∈ l, p i = true := by
  induction l with
  | nil => intro i hi; cases hi
  | cons a t ih =>
    intro i hi
    cases hp : p a with
    | true =>
      rcases List.mem_cons.mp hi with rfl | hi2
      · exact hp
      · refine ih ?_ i hi2
        rw [List.filter_cons, hp] at h
        simpa using h
    | false =>
      rw [List.filter_cons, hp] at h
      have := List.length_filter_le p t
      simp at h
      omega

theorem run_fallible_coverage_iff {σ ε : Type} (run : RunCtx)
    (step : σ → Report → Except ε σ) (s : σ) (start fin : ℕ) :
    run_fallible run step s start fin =
      Except.error (RunError.coverage (coverageMsg start fin)) ↔
    fin ≤ start + missedCount run start fin := by
  constructor
  · intro h
    unfold run_fallible at h
    cases hloop : runLoop run step (List.range' start (fin - start)) s 0 with
    | error e =>
      rw [hloop] at h
      dsimp only at h
      cases h
    | ok pair =>
      obtain ⟨s2, m⟩ := pair
      rw [hloop] at h
      dsimp only at h
      have hm := runLoop_missed run step _ s 0 s2 m hloop
      by_cases hcov : start + m ≥ fin
      · unfold missedCount
        omega
      · rw [if_neg hcov] at h
        cases h
  · intro hcov
    unfold run_fallible
    rcases le_or_lt fin start with hle | hlt
    · rw [Nat.sub_eq_zero_of_le hle]
      rw [show runLoop run step (List.range' start 0) s 0 = Except.ok (s, 0) from rfl]
      dsimp only
      rw [if_pos (by omega)]
    · have hmcle : missedCount run start fin ≤ fin - start := by
        unfold missedCount
        calc ((List.range' start (fin - start)).filter fun i => !fetchOk (run.reports i)).length
            ≤ (List.range' start (fin - start)).length := List.length_filter_le _ _
          _ = fin - start := List.length_range' start 1 (fin - start)
      have hmc_eq : missedCount run start fin = fin - start := by omega
      have hfl : ((List.range' start (fin - start)).filter
          fun i => !fetchOk (run.reports i)).length =
          (List.range' start (fin - start)).length := by
        unfold missedCount at hmc_eq
        rw [hmc_eq, List.length_range' start 1 (fin - start)]
      have hall := filter_length_eq_all _ hfl
      have hall2 : ∀ i ∈ List.range' start (fin - start),
          fetchOk (run.reports i) = false := by
        intro i hi
        have h3 := hall i hi
        simpa using h3
      rw [runLoop_all_fail run step _ s 0 hall2]
      dsimp only
      rw [List.length_range' start 1 (fin - start)]
      rw [if_pos (by omega)]

theorem run_fallible_ok {σ ε : Type} (run : RunCtx)
    (step : σ → Report → Except ε σ) (s : σ) (start fin : ℕ)
    (hstep : ∀ s2 rep, ∃ s3, step s2 rep = Except.ok s3)
    (hlt : start + missedCount run start fin < fin) :
    ∃ s2, run_fallible run step s start fin =
      Except.ok (s2, missedCount run start fin) := by
  obtain ⟨s2, hs2⟩ := runLoop_success run step hstep (List.range' start (fin - start)) s 0
  have hs2a : runLoop run step (List.range' start (fin - start)) s 0 =
      Except.ok (s2, missedCount run start fin) := by
    simpa [missedCount] using hs2
  refine ⟨s2, ?_⟩
  unfold run_fallible
  rw [hs2a]
  dsimp only
  rw [if_neg (by omega)]

/-- C1: Studies::run_fallible fails with the coverage error naming both
bounds exactly when start plus the number of fetch failures over the range
reaches end; otherwise, when every study update succeeds, it returns Ok with
the number of fetch failures.  In particular it fails with the coverage error
when all of [0, 10) fail to fetch, and returns Ok with 9 missed when only
index 5 succeeds. -/
theorem c1_thm {σ ε : Type} (run : RunCtx) (step : σ → Report → Except ε σ)
    (s : σ) (start fin : ℕ) :
    (run_fallible run step s start fin =
        Except.error (RunError.coverage (coverageMsg start fin)) ↔
      fin ≤ start + missedCount run start fin) ∧
    ((∀ s2 rep, ∃ s3, step s2 rep = Except.ok s3) →
      start + missedCount run start fin < fin →
      ∃ s2, run_fallible run step s start fin =
        Except.ok (s2, missedCount run start fin)) ∧
    ((∀ i, i < 10 → fetchOk (run.reports i) = false) →
      run_fallible run step s 0 10 =
        Except.error (RunError.coverage (coverageMsg 0 10))) ∧
    ((∀ i, i < 10 → fetchOk (run.reports i) = decide (i = 5)) →
      (∀ s2 rep, ∃ s3, step s2 rep = Except.ok s3) →
      ∃ s2, run_fallible run step s 0 10 = Except.ok (s2, 9)) := by
  refine ⟨run_fallible_coverage_iff run step s start fin,
    fun hstep hlt => run_fallible_ok run step s start fin hstep hlt, ?_, ?_⟩
  · intro hfail
    have h10 : missedCount run 0 10 = 10 := by
      unfold missedCount
      rw [show List.range' 0 (10 - 0) = [0, 1, 2, 3, 4, 5, 6, 7, 8, 9] from rfl]
      simp [List.filter_cons, hfail 0 (by omega), hfail 1 (by omega), hfail 2 (by omega),
        hfail 3 (by omega), hfail 4 (by omega), hfail 5 (by omega), hfail 6 (by omega),
        hfail 7 (by omega), hfail 8 (by omega), hfail 9 (by omega)]
    exact (run_fallible_coverage_iff run step s 0 10).mpr (by omega)
  · intro hfetch hstep
    have h9 : missedCount run 0 10 = 9 := by
      unfold missedCount
      rw [show List.range' 0 (10 - 0) = [0, 1, 2, 3, 4, 5, 6, 7, 8, 9] from rfl]
      simp [List.filter_cons, hfetch 0 (by omega), hfetch 1 (by omega), hfetch 2 (by omega),
        hfetch 3 (by omega), hfetch 4 (by omega), hfetch 5 (by omega), hfetch 6 (by omega),
        hfetch 7 (by omega), hfetch 8 (by omega), hfetch 9 (by omega)]
    obtain ⟨s2, hs2⟩ := run_fallible_ok run step s 0 10 hstep (by omega)
    rw [h9] at hs2
    exact ⟨s2, hs2⟩

/-- A trivial one-state study whose update always succeeds. -/
def unitStep : Unit → Report → Except Unit Unit := fun _ _ => Except.ok ()

/-- A report source failing at every index. -/
def runAllFail : RunCtx := ⟨fun _ => Except.error (), fun _ _ => 0⟩

/-- A report source succeeding only at index 5. -/
def runOnly5 : RunCtx :=
  ⟨fun i => if i = 5 then Except.ok demoRep else Except.error (), fun _ _ => 0⟩

/-- Witness for C1 at the two concrete report sources of the claim. -/
theorem c1_witness :
    run_fallible runAllFail unitStep () 0 10 =
      Except.error (RunError.coverage (coverageMsg 0 10)) ∧
    ∃ s2, run_fallible runOnly5 unitStep () 0 10 = Except.ok (s2, 9) :=
  ⟨(c1_thm runAllFail unitStep () 0 10).2.2.1 (fun _ _ => rfl),
   (c1_thm runOnly5 unitStep () 0 10).2.2.2
     (fun i _ => by by_cases h : i = 5 <;> simp [runOnly5, fetchOk, h])
     (fun _ _ => ⟨(), rfl⟩)⟩

/-- C10: on every empty index range (start ≥ end), Studies::run_fallible
fails with the coverage error naming both bounds, regardless of the report
source and the registered studies. -/
theorem c10_thm {σ ε : Type} (run : RunCtx) (step : σ → Report → Except ε σ)
    (s : σ) (start fin : ℕ) (h : fin ≤ start) :
    run_fallible run step s start fin =
      Except.error (RunError.coverage (coverageMsg start fin)) :=
  (run_fallible_coverage_iff run step s start fin).mpr (by omega)

/-- Witness for C10 at the concrete empty range [5, 3). -/
theorem c10_witness :
    (3 : ℕ) ≤ 5 ∧ run_fallible runAllFail unitStep () 5 3 =
      Except.error (RunError.coverage (coverageMsg 5 3)) :=
  ⟨by omega, c10_thm runAllFail unitStep () 5 3 (by omega)⟩

/-- study.rs lines 164–184: the composite StudyMeanPcts, one mean and one
percentile accumulator sharing a selector. -/
structure StudyMeanPcts where
  study_mean : StudyMean
  study_pcts : StudyPcts

/-- study.rs lines 178–183: StudyMeanPcts::new. -/
def StudyMeanPcts.new (sel : Report → Option ℚ) (error : Option ℚ) : StudyMeanPcts :=
  ⟨StudyMean.new sel, StudyPcts.new sel error⟩

/-- The state transition of StudyMeanPcts::study (study.rs lines 191–193):
both sub-accumulators consume the same report. -/
def StudyMeanPcts.step (s : StudyMeanPcts) (rep : Report) : StudyMeanPcts :=
  ⟨s.study_mean.step rep, s.study_pcts.step rep⟩

/-- study.rs lines 191–193: StudyMeanPcts::study, mean.study(rep) and-then
pcts.study(rep); both always return Ok. -/
def StudyMeanPcts.study (s : StudyMeanPcts) (rep : Report) :
    Except String StudyMeanPcts :=
  Except.ok (s.step rep)

/-- study.rs lines 209–213: StudyMeanPcts::result = (mean, stdev, percentile
map); none models a panic inside StudyPcts::result. -/
noncomputable def StudyMeanPcts.result (s : StudyMeanPcts) (pcts : List String) :
    Option (ℚ × ℝ × List (String × ℚ)) :=
  (s.study_pcts.result pcts).map fun m =>
    ((s.study_mean.result).1, (s.study_mean.result).2.1, m)

/-- BTreeMap::insert on an association list: replace the first binding of the
key, or append a new binding. -/
def insertKV {α : Type} : List (String × α) → String → α → List (String × α)
  | [], k, v => [(k, v)]
  | (k0, v0) :: rest, k, v =>
    if k0 = k then (k, v) :: rest else (k0, v0) :: insertKV rest k v

/-- BTreeMap lookup on an association list. -/
def lookupKV {α : Type} : List (String × α) → String → Option α
  | [], _ => none
  | (k0, v0) :: rest, k => if k0 = k then some v0 else lookupKV rest k

namespace StudyIoLatPcts

/-- Modelled from the spec: rd_agent_intf::IoLatReport::PCTS (not under
src/), the fixed ascending row-label set of latency percentiles including
fractional labels, re-exported as LAT_PCTS at study.rs line 225. -/
def LAT_PCTS : List String :=
  ["1", "5", "10", "16", "25", "50", "75", "84", "90", "95", "99", "99.9", "100"]

/-- study.rs lines 226–228: TIME_PCTS, the canonical 14 column labels. -/
def TIME_PCTS : List String :=
  ["00", "01", "05", "10", "16", "25", "50", "75", "84", "90", "95", "99", "99.9", "100"]

/-- study.rs lines 229–230: TIME_FORMAT_PCTS, the default table columns. -/
def TIME_FORMAT_PCTS : List String :=
  ["00", "16", "50", "84", "90", "95", "99", "99.9", "100"]

end StudyIoLatPcts

/-- study.rs lines 219–222: the matrix study, an io_type plus one composite
study per row label. -/
structure StudyIoLatPcts where
  io_type : String
  studies : List StudyMeanPcts

/-- study.rs lines 232–243: StudyIoLatPcts::new, one composite study per row
label, each with a selector specialised to (io_type, pct). -/
def StudyIoLatPcts.new (io_type : String) (error : Option ℚ) : StudyIoLatPcts :=
  ⟨io_type, StudyIoLatPcts.LAT_PCTS.map fun pct =>
    StudyMeanPcts.new (sel_factory_iolat io_type pct) error⟩

/-- One driver iteration over the matrix study's registered studies (exposed
by studies() at study.rs lines 245–250): every study consumes the report. -/
def StudyIoLatPcts.feedRep (st : StudyIoLatPcts) (rep : Report) : StudyIoLatPcts :=
  { st with studies := st.studies.map fun s => s.step rep }

/-- Feeding a whole report sequence through the matrix study's studies. -/
def StudyIoLatPcts.feed (st : StudyIoLatPcts) (reps : List Report) : StudyIoLatPcts :=
  reps.foldl StudyIoLatPcts.feedRep st

/-- study.rs lines 252–274: StudyIoLatPcts::result: per row label, the
composite result over the column labels with "mean" and "stdev" inserted
under their reserved keys, then "cum" fetched through the external accessor
and inserted; none models a panic of the unwraps inside. -/
noncomputable def StudyIoLatPcts.result (st : StudyIoLatPcts) (rctx : RunCtx)
    (time_pcts : Option (List String)) :
    Option (List (String × List (String × ℝ))) :=
  mapMOpt (fun p : String × StudyMeanPcts =>
      (p.2.result (time_pcts.getD StudyIoLatPcts.TIME_PCTS)).map fun r =>
        (p.1, insertKV (insertKV (insertKV (r.2.2.map fun kv => (kv.1, (kv.2 : ℝ)))
          "mean" ((r.1 : ℚ) : ℝ)) "stdev" r.2.1) "cum"
          ((rctx.iolat_cum st.io_type p.1 : ℚ) : ℝ)))
    (StudyIoLatPcts.LAT_PCTS.zip st.studies)

theorem lookupKV_insertKV_self {α : Type} (m : List (String × α)) (k : String) (v : α) :
    lookupKV (insertKV m k v) k = some v := by
  induction m with
  | nil => simp [insertKV, lookupKV]
  | cons p rest ih =>
    obtain ⟨k0, v0⟩ := p
    unfold insertKV
    by_cases h : k0 = k
    · rw [if_pos h]
      simp [lookupKV]
    · rw [if_neg h]
      unfold lookupKV
      rw [if_neg h]
      exact ih

theorem lookupKV_insertKV_other {α : Type} (m : List (String × α)) (k k2 : String)
    (v : α) (hne : k ≠ k2) : lookupKV (insertKV m k v) k2 = lookupKV m k2 := by
  induction m with
  | nil => simp [insertKV, lookupKV, hne]
  | cons p rest ih =>
    obtain ⟨k0, v0⟩ := p
    unfold insertKV
    by_cases h : k0 = k
    · rw [if_pos h]
      unfold lookupKV
      rw [if_neg hne, if_neg (h ▸ hne)]
    · rw [if_neg h]
      unfold lookupKV
      by_cases h2 : k0 = k2
      · rw [if_pos h2, if_pos h2]
      · rw [if_neg h2, if_neg h2]
        exact ih

theorem feed_studies (st : StudyIoLatPcts) (reps : List Report) :
    st.feed reps =
      ⟨st.io_type, st.studies.map fun s => reps.foldl StudyMeanPcts.step s⟩ := by
  induction reps generalizing st with
  | nil =>
    show st = _
    cases st
    simp
  | cons rep rest ih =>
    show StudyIoLatPcts.feed (st.feedRep rep) rest = _
    rw [ih]
    unfold StudyIoLatPcts.feedRep
    simp only [List.map_map, List.foldl_cons]
    rfl

theorem foldl_step_general (sel : Report → Option ℚ) (reps : List Report)
    (d : List ℚ) (c : CKMS) :
    reps.foldl StudyMeanPcts.step ⟨⟨sel, d⟩, ⟨sel, c⟩⟩ =
      ⟨⟨sel, d ++ reps.filterMap sel⟩,
       ⟨sel, (reps.filterMap sel).foldl CKMS.insert c⟩⟩ := by
  induction reps generalizing d c with
  | nil => simp
  | cons rep rest ih =>
    simp only [List.foldl_cons]
    cases hv : sel rep with
    | none =>
      rw [show StudyMeanPcts.step ⟨⟨sel, d⟩, ⟨sel, c⟩⟩ rep = ⟨⟨sel, d⟩, ⟨sel, c⟩⟩ from by
        simp [StudyMeanPcts.step, StudyMean.step, StudyPcts.step, hv]]
      rw [ih d c]
      simp [List.filterMap_cons, hv]
    | some v =>
      rw [show StudyMeanPcts.step ⟨⟨sel, d⟩, ⟨sel, c⟩⟩ rep =
          ⟨⟨sel, d ++ [v]⟩, ⟨sel, c.insert v⟩⟩ from by
        simp [StudyMeanPcts.step, StudyMean.step, StudyPcts.step, hv]]
      rw [ih (d ++ [v]) (c.insert v)]
      simp [List.filterMap_cons, hv]

theorem foldl_step_new (sel : Report → Option ℚ) (error : Option ℚ)
    (reps : List Report) :
    reps.foldl StudyMeanPcts.step (StudyMeanPcts.new sel error) =
      ⟨⟨sel, reps.filterMap sel⟩,
       ⟨sel, (reps.filterMap sel).foldl CKMS.insert
         (CKMS.new (error.getD CKMS_DFL_ERROR))⟩⟩ := by
  have h := foldl_step_general sel reps [] (CKMS.new (error.getD CKMS_DFL_ERROR))
  simpa [StudyMeanPcts.new, StudyMean.new, StudyPcts.new] using h

theorem zip_map_self {α β : Type} (l : List α) (g : α → β) :
    l.zip (l.map g) = l.map fun p => (p, g p) := by
  induction l with
  | nil => rfl
  | cons a t ih => simp [ih]

theorem mapMOpt_map {α β γ : Type} (f : β → Option γ) (g : α → β) (l : List α) :
    mapMOpt f (l.map g) = mapMOpt (fun a => f (g a)) l := by
  induction l with
  | nil => rfl
  | cons a t ih =>
    simp only [List.map_cons]
    unfold mapMOpt
    rw [ih]

theorem mapMOpt_table {γ : Type} (f : String → Option (String × γ))
    (l : List String) (R : String → γ → Prop)
    (h : ∀ p ∈ l, ∃ row, f p = some (p, row) ∧ R p row) :
    ∃ table, mapMOpt f l = some table ∧
      ∀ p ∈ l, ∃ row, lookupKV table p = some row ∧ R p row := by
  induction l with
  | nil => exact ⟨[], rfl, fun p hp => absurd hp (List.not_mem_nil p)⟩
  | cons a t ih =>
    obtain ⟨rowa, hfa, hRa⟩ := h a (List.mem_cons_self a t)
    obtain ⟨table, htab, hprops⟩ := ih (fun x hx => h x (List.mem_cons_of_mem a hx))
    refine ⟨(a, rowa) :: table, ?_, ?_⟩
    · unfold mapMOpt
      rw [hfa, htab]
    · intro p hp
      rcases List.mem_cons.mp hp with rfl | hp2
      · exact ⟨rowa, by simp [lookupKV], hRa⟩
      · by_cases hap : a = p
        · subst hap
          exact ⟨rowa, by simp [lookupKV], hRa⟩
        · obtain ⟨row, hrow, hR⟩ := hprops p hp2
          refine ⟨row, ?_, hR⟩
          unfold lookupKV
          rw [if_neg hap]
          exact hrow

theorem result_keys (sp : StudyPcts) (pcts : List String)
    (hobs : sp.ckms.samples ≠ [])
    (hparse : ∀ p ∈ pcts, (parsePct p).isSome = true) :
    ∃ l, sp.result pcts = some l ∧ l.map Prod.fst = pcts := by
  induction pcts with
  | nil => exact ⟨[], rfl, rfl⟩
  | cons p rest ih =>
    obtain ⟨q, hq⟩ := Option.isSome_iff_exists.mp (hparse p (List.mem_cons_self p rest))
    obtain ⟨l, hl, hmap⟩ := ih (fun x hx => hparse x (List.mem_cons_of_mem p hx))
    refine ⟨(p, (sp.ckms.samples.getD
      (min (max 1 ⌈q / 100 * sp.ckms.samples.length⌉₊) sp.ckms.samples.length - 1) 0)) :: l,
      ?_, by simp [hmap]⟩
    show mapMOpt (sp.queryPct) (p :: rest) = _
    unfold mapMOpt
    rw [show sp.queryPct p = some (p, sp.ckms.samples.getD
      (min (max 1 ⌈q / 100 * sp.ckms.samples.length⌉₊) sp.ckms.samples.length - 1) 0) by
        unfold StudyPcts.queryPct
        rw [hq, Option.some_bind, CKMS.query_eq_of_ne_nil sp.ckms hobs (q / 100)]
        rfl]
    rw [show mapMOpt (sp.queryPct) rest = some l from hl]

/-- C6 (amended): a matrix study fed any report sequence for which every row
selector extracts at least one value produces, for every row label, a row map
containing the reserved keys "mean", "stdev" and "cum" (the last fetched
through the external accessor), and the value under "mean" equals the
arithmetic mean of the values the row's selector extracted from the fed
reports. -/
theorem c6_thm (io : String) (err : Option ℚ) (reps : List Report) (rctx : RunCtx)
    (hne : ∀ pct ∈ StudyIoLatPcts.LAT_PCTS,
      reps.filterMap (sel_factory_iolat io pct) ≠ []) :
    ∃ table, ((StudyIoLatPcts.new io err).feed reps).result rctx none = some table ∧
      ∀ lat_pct ∈ StudyIoLatPcts.LAT_PCTS, ∃ row,
        lookupKV table lat_pct = some row ∧
        lookupKV row "mean" = some
          ((statistical.mean (reps.filterMap (sel_factory_iolat io lat_pct)) : ℚ) : ℝ) ∧
        (∃ sv, lookupKV row "stdev" = some sv) ∧
        lookupKV row "cum" = some ((rctx.iolat_cum io lat_pct : ℚ) : ℝ) := by
  have htp : ∀ p ∈ StudyIoLatPcts.TIME_PCTS, (parsePct p).isSome = true := by decide
  have hfeed : (StudyIoLatPcts.new io err).feed reps =
      ⟨io, StudyIoLatPcts.LAT_PCTS.map fun pct =>
        reps.foldl StudyMeanPcts.step
          (StudyMeanPcts.new (sel_factory_iolat io pct) err)⟩ := by
    rw [feed_studies]
    unfold StudyIoLatPcts.new
    simp only [List.map_map]
    rfl
  rw [hfeed]
  unfold StudyIoLatPcts.result
  rw [zip_map_self, mapMOpt_map]
  refine mapMOpt_table _ StudyIoLatPcts.LAT_PCTS
    (fun lat_pct row =>
      lookupKV row "mean" = some
        ((statistical.mean (reps.filterMap (sel_factory_iolat io lat_pct)) : ℚ) : ℝ) ∧
      (∃ sv, lookupKV row "stdev" = some sv) ∧
      lookupKV row "cum" = some ((rctx.iolat_cum io lat_pct : ℚ) : ℝ)) ?_
  intro pct hp
  dsimp only
  simp only [Option.getD_none]
  rw [foldl_step_new]
  have hfmne : reps.filterMap (sel_factory_iolat io pct) ≠ [] := hne pct hp
  have hcksne : ((reps.filterMap (sel_factory_iolat io pct)).foldl CKMS.insert
      (CKMS.new (err.getD CKMS_DFL_ERROR))).samples ≠ [] := by
    intro hnil
    have hlen := CKMS.length_foldl_insert (reps.filterMap (sel_factory_iolat io pct))
      (CKMS.new (err.getD CKMS_DFL_ERROR))
    rw [hnil] at hlen
    simp [CKMS.new] at hlen
    exact hfmne (List.length_eq_zero.mp (by omega))
  obtain ⟨m, hm, hkeys⟩ := result_keys
    ⟨sel_factory_iolat io pct,
      (reps.filterMap (sel_factory_iolat io pct)).foldl CKMS.insert
        (CKMS.new (err.getD CKMS_DFL_ERROR))⟩
    StudyIoLatPcts.TIME_PCTS hcksne htp
  have hcomp : StudyMeanPcts.result
      ⟨⟨sel_factory_iolat io pct, reps.filterMap (sel_factory_iolat io pct)⟩,
       ⟨sel_factory_iolat io pct,
        (reps.filterMap (sel_factory_iolat io pct)).foldl CKMS.insert
          (CKMS.new (err.getD CKMS_DFL_ERROR))⟩⟩
      StudyIoLatPcts.TIME_PCTS =
      some (statistical.mean (reps.filterMap (sel_factory_iolat io pct)),
        (StudyMean.result ⟨sel_factory_iolat io pct,
          reps.filterMap (sel_factory_iolat io pct)⟩).2.1, m) := by
    unfold StudyMeanPcts.result
    rw [show StudyPcts.result
        ⟨sel_factory_iolat io pct,
          (reps.filterMap (sel_factory_iolat io pct)).foldl CKMS.insert
            (CKMS.new (err.getD CKMS_DFL_ERROR))⟩
        StudyIoLatPcts.TIME_PCTS = some m from hm]
    rfl
  refine ⟨insertKV (insertKV (insertKV (m.map fun kv => (kv.1, (kv.2 : ℝ)))
      "mean" ((statistical.mean (reps.filterMap (sel_factory_iolat io pct)) : ℚ) : ℝ))
      "stdev" ((StudyMean.result ⟨sel_factory_iolat io pct,
        reps.filterMap (sel_factory_iolat io pct)⟩).2.1))
      "cum" ((rctx.iolat_cum io pct : ℚ) : ℝ), ?_, ?_, ?_, ?_⟩
  · rw [hcomp]
    rfl
  · rw [lookupKV_insertKV_other _ "cum" "mean" _ (by decide),
      lookupKV_insertKV_other _ "stdev" "mean" _ (by decide),
      lookupKV_insertKV_self]
  · exact ⟨_, by
      rw [lookupKV_insertKV_other _ "cum" "stdev" _ (by decide),
        lookupKV_insertKV_self]⟩
  · rw [lookupKV_insertKV_self]

/-- Counterexample for C6 as stated: fed the empty report sequence, every
row's sketch is empty, the query unwrap inside StudyPcts::result panics, and
result produces no table at all. -/
theorem c6_cex :
    ((StudyIoLatPcts.new "read" none).feed []).result runAllFail none = none := rfl

/-- Witness for C6 at one concrete report whose iolat values are all 1. -/
theorem c6_witness :
    (∀ pct ∈ StudyIoLatPcts.LAT_PCTS,
      List.filterMap (sel_factory_iolat "read" pct) [demoRep] ≠ []) ∧
    ∃ table, ((StudyIoLatPcts.new "read" none).feed [demoRep]).result runAllFail none =
      some table ∧
      ∀ lat_pct ∈ StudyIoLatPcts.LAT_PCTS, ∃ row,
        lookupKV table lat_pct = some row ∧
        lookupKV row "mean" = some ((statistical.mean
          (List.filterMap (sel_factory_iolat "read" lat_pct) [demoRep]) : ℚ) : ℝ) ∧
        (∃ sv, lookupKV row "stdev" = some sv) ∧
        lookupKV row "cum" = some ((runAllFail.iolat_cum "read" lat_pct : ℚ) : ℝ) := by
  have hyp : ∀ pct ∈ StudyIoLatPcts.LAT_PCTS,
      List.filterMap (sel_factory_iolat "read" pct) [demoRep] ≠ [] := by
    intro pct hp
    norm_num [sel_factory_iolat, demoRep, List.filterMap_cons]
  exact ⟨hyp, c6_thm "read" none [demoRep] runAllFail hyp⟩
